import Mathlib

/-!
Verification model of the mofox-huggingface sync subsystem.

This file gives a shallow embedding of the LFS offload/restore subsystem:
`sync/core/pointer.py`, `sync/core/manifest.py`, `sync/core/lfs_ops.py`,
`sync/core/release_api.py` and the periodic cycle of `sync/daemon.py`.

Modelling conventions:
- File contents are an abstract type `γ`; the sha256 hex digest is an
  explicit function parameter `hexFn : γ → String` and file size a
  parameter `sizeFn : γ → Int` (the code never inspects bytes except
  through `hashlib` and `os.path.getsize`).
- The filesystem is an association list `path → content`; the blob store
  ("GitHub releases") is an association list `tag → (asset name → content)`.
- Pointer-file JSON serialisation is abstracted by a pair of parameters
  `enc : PointerFile → γ` / `dec : γ → Option PointerFile`; the JSON level
  itself is modelled separately (`Json`, `read_pointer_json`) for the
  claims about `read_pointer`.
- Python strings are compared lexicographically by code point; this is
  embedded as `lexLe` on `List Char` since the timestamps in the manifest
  are compared as strings.
- Git operations, `chmod`, directory walking and the `.git`-skip are
  external collaborators; the periodic cycle records them as abstract
  trace events.
-/

namespace Mofox

/-! ### Python string primitives -/

/-- Lexicographic (code-point) order on character lists: Python `<=` on `str`. -/
def lexLe : List Char → List Char → Bool
  | [], _ => true
  | _ :: _, [] => false
  | a :: as, b :: bs =>
    if a.toNat < b.toNat then true
    else if b.toNat < a.toNat then false
    else lexLe as bs

/-- Python `a <= b` on strings. -/
def strLe (a b : String) : Bool := lexLe a.data b.data

/-- Python `s[:-n]` for `n ≤ len s` (drops the last `n` characters). -/
def strDropRight (s : String) (n : Nat) : String :=
  String.mk (s.data.take (s.data.length - n))

/-- Python `s.endswith(suf)`. -/
def strEndsWith (s suf : String) : Bool := suf.data.isSuffixOf s.data

/-- Python `s.startswith(pre)`. -/
def strStartsWith (s pre : String) : Bool := pre.data.isPrefixOf s.data

/-- Python `os.path.basename` (the part after the last `/`). -/
def basename (s : String) : String :=
  String.mk (((s.data.reverse).takeWhile (fun c => c ≠ '/')).reverse)

theorem lexLe_total : ∀ a b, lexLe a b = true ∨ lexLe b a = true := by
  intro a
  induction a with
  | nil => intro b; exact Or.inl rfl
  | cons x xs ih =>
    intro b
    cases b with
    | nil => exact Or.inr rfl
    | cons y ys =>
      by_cases h1 : x.toNat < y.toNat
      · left; simp [lexLe, h1]
      · by_cases h2 : y.toNat < x.toNat
        · right; simp [lexLe, h2]
        · have := ih ys
          cases this with
          | inl h => left; simp [lexLe, h1, h2, h]
          | inr h => right; simp [lexLe, h1, h2, h]

theorem lexLe_trans : ∀ a b c, lexLe a b = true → lexLe b c = true → lexLe a c = true := by
  intro a
  induction a with
  | nil => intro b c _ _; rfl
  | cons x xs ih =>
    intro b c hab hbc
    cases b with
    | nil => simp [lexLe] at hab
    | cons y ys =>
      cases c with
      | nil => simp [lexLe] at hbc
      | cons z zs =>
        simp only [lexLe] at hab hbc ⊢
        by_cases hxy : x.toNat < y.toNat
        · by_cases hyz : y.toNat < z.toNat
          · have hxz : x.toNat < z.toNat := Nat.lt_trans hxy hyz
            simp [hxz]
          · by_cases hzy : z.toNat < y.toNat
            · simp [hxy, hyz, hzy] at hbc
            · have hyz' : y.toNat = z.toNat := Nat.le_antisymm (Nat.le_of_not_lt hzy) (Nat.le_of_not_lt hyz)
              have hxz : x.toNat < z.toNat := hyz' ▸ hxy
              simp [hxz]
        · by_cases hyx : y.toNat < x.toNat
          · simp [hxy, hyx] at hab
          · have hxy' : x.toNat = y.toNat := Nat.le_antisymm (Nat.le_of_not_lt hyx) (Nat.le_of_not_lt hxy)
            by_cases hyz : y.toNat < z.toNat
            · have hxz : x.toNat < z.toNat := hxy' ▸ hyz
              simp [hxz]
            · by_cases hzy : z.toNat < y.toNat
              · simp [hxy, hyz, hzy] at hbc
              · have hxz : ¬ x.toNat < z.toNat := by
                  rw [hxy']; exact hyz
                have hzx : ¬ z.toNat < x.toNat := by
                  rw [hxy']; exact hzy
                simp only [hxy, hyx, if_false, if_neg hxy, if_neg hyx] at hab
                simp only [if_neg hyz, if_neg hzy] at hbc
                simp only [if_neg hxz, if_neg hzx]
                exact ih ys zs hab hbc

/-! ### Pointer files (`sync/core/pointer.py`) -/

/-- `PointerFile` dataclass. `size` is an `Int` since Python does not
constrain the JSON value to be non-negative. -/
structure PointerFile where
  version : Nat
  hash : String
  size : Int
  filename : String
  release_tag : String
  asset_name : String
deriving DecidableEq

/-- `validate_pointer`: hash prefixed `sha256:`, positive size, non-empty
filename / asset name / release tag. -/
def validate_pointer (p : PointerFile) : Bool :=
  strStartsWith p.hash "sha256:" && decide (0 < p.size) &&
    !(p.filename == "") && !(p.asset_name == "") && !(p.release_tag == "")

/-- `get_real_path_from_pointer`: strip a trailing `.pointer` if present. -/
def get_real_path_from_pointer (pointer_path : String) : String :=
  if strEndsWith pointer_path ".pointer" then strDropRight pointer_path 8 else pointer_path

/-! ### Manifest (`sync/core/manifest.py`) -/

/-- `FileVersion` dataclass. Timestamps are ISO-8601 strings compared
lexicographically (Python `sorted(key=...)` on strings). -/
structure FileVersion where
  hash : String
  asset_name : String
  size : Int
  timestamp : String
  uploaded : Bool := true
deriving DecidableEq

/-- `FileRecord` dataclass: current hash plus the ordered version list. -/
structure FileRecord where
  current_hash : String
  versions : List FileVersion
deriving DecidableEq

/-- The `files` mapping of `manifest.json` (`path → FileRecord`), as an
insertion-ordered association list like a Python dict. The envelope
fields (`version`, `last_updated`, `release_tag`) play no role in the
claims and are omitted. -/
structure ManifestData where
  files : List (String × FileRecord)
deriving DecidableEq

/-- Python dict assignment `d[k] = v`: update in place if the key exists
(preserving position), else append. -/
def assocSet {β : Type} : List (String × β) → String → β → List (String × β)
  | [], k, v => [(k, v)]
  | (k', v') :: rest, k, v =>
    if k' == k then (k, v) :: rest else (k', v') :: assocSet rest k v

/-- `Manifest.get_file_record`. -/
def get_file_record (m : ManifestData) (file_path : String) : Option FileRecord :=
  m.files.lookup file_path

/-- Descending-by-timestamp comparison used by
`sorted(record.versions, key=lambda v: v.timestamp, reverse=True)`. -/
def tsGe (a b : FileVersion) : Prop := strLe b.timestamp a.timestamp = true

instance : DecidableRel tsGe := fun a b =>
  inferInstanceAs (Decidable (strLe b.timestamp a.timestamp = true))

instance : IsTotal FileVersion tsGe :=
  ⟨fun a b => lexLe_total b.timestamp.data a.timestamp.data⟩

instance : IsTrans FileVersion tsGe :=
  ⟨fun _ _ _ h1 h2 => lexLe_trans _ _ _ h2 h1⟩

/-- `sorted(versions, key=lambda v: v.timestamp, reverse=True)`: a stable
sort putting the newest timestamp first. -/
def sortVersionsDesc (vs : List FileVersion) : List FileVersion :=
  vs.insertionSort tsGe

/-- `Manifest.add_version`: dedupe by hash, append a timestamped version,
optionally set `current_hash`. `now` is the `_current_time()` value. -/
def add_version (m : ManifestData) (file_path hash_value asset_name : String)
    (size : Int) (now : String) (set_as_current : Bool := true) : ManifestData :=
  let new_version : FileVersion := ⟨hash_value, asset_name, size, now, true⟩
  match m.files.lookup file_path with
  | some record =>
    let versions' :=
      if record.versions.any (fun v => v.hash == hash_value) then record.versions
      else record.versions ++ [new_version]
    let current' := if set_as_current then hash_value else record.current_hash
    ⟨assocSet m.files file_path ⟨current', versions'⟩⟩
  | none =>
    ⟨assocSet m.files file_path ⟨hash_value, [new_version]⟩⟩

/-- `Manifest.get_current_version`: first version matching `current_hash`,
else the last element of the stored list. -/
def get_current_version (m : ManifestData) (file_path : String) : Option FileVersion :=
  match get_file_record m file_path with
  | none => none
  | some record =>
    match record.versions.find? (fun v => v.hash == record.current_hash) with
    | some v => some v
    | none => record.versions.getLast?

/-- `Manifest.get_all_versions`: all versions sorted newest-first. -/
def get_all_versions (m : ManifestData) (file_path : String) : List FileVersion :=
  match get_file_record m file_path with
  | none => []
  | some record => sortVersionsDesc record.versions

/-- `Manifest.cleanup_old_versions`: keep the newest `keep` versions,
return the evicted asset names. Returns the updated manifest (the Python
method mutates `self`). -/
def cleanup_old_versions (m : ManifestData) (file_path : String) (keep : Nat) :
    ManifestData × List String :=
  match get_file_record m file_path with
  | none => (m, [])
  | some record =>
    if record.versions.length ≤ keep then (m, [])
    else
      let sorted_versions := sortVersionsDesc record.versions
      let to_keep := sorted_versions.take keep
      let to_remove := sorted_versions.drop keep
      (⟨assocSet m.files file_path ⟨record.current_hash, to_keep⟩⟩,
        to_remove.map (fun v => v.asset_name))

/-- `Manifest.cleanup_all_old_versions`: run cleanup over every tracked
path, collecting the non-empty eviction lists. -/
def cleanup_all_old_versions (m : ManifestData) (keep : Nat) :
    ManifestData × List (String × List String) :=
  m.files.foldl
    (fun acc kv =>
      let r := cleanup_old_versions acc.1 kv.1 keep
      (r.1, if r.2 == [] then acc.2 else acc.2 ++ [(kv.1, r.2)]))
    (m, [])

/-! ### JSON-level pointer parsing (`read_pointer`, `PointerFile.from_dict`) -/

/-- JSON values, for the parsing-level model of `read_pointer`. -/
inductive Json where
  | null : Json
  | bool (b : Bool) : Json
  | num (n : Int) : Json
  | str (s : String) : Json
  | arr (xs : List Json) : Json
  | obj (fields : List (String × Json)) : Json

/-- The parsed pointer at JSON level: `PointerFile.from_dict` stores the
raw dict values without type coercion, so every field is a `Json`. -/
structure PointerFileJ where
  version : Json
  hash : Json
  size : Json
  filename : Json
  release_tag : Json
  asset_name : Json

/-- `PointerFile.from_dict`: `version` defaults to `1` via `.get`;
every other field access raises `KeyError` when absent (→ `none`). -/
def pointer_from_dict (fields : List (String × Json)) : Option PointerFileJ :=
  match fields.lookup "hash", fields.lookup "size", fields.lookup "filename",
      fields.lookup "release_tag", fields.lookup "asset_name" with
  | some h, some sz, some fn, some rt, some an =>
    some ⟨(fields.lookup "version").getD (Json.num 1), h, sz, fn, rt, an⟩
  | _, _, _, _, _ => none

/-- `data.get("type") != "lfs-pointer"`: a Python string comparison, true
only for the string value `"lfs-pointer"`. -/
def isPointerMarker : Option Json → Bool
  | some (Json.str s) => s == "lfs-pointer"
  | _ => false

/-- `read_pointer`, at the level of parsed file content: `none` input
stands for content that fails `json.load`. Non-dict JSON, a missing or
wrong `type` discriminator, and a `from_dict` `KeyError` all yield `None`. -/
def read_pointer_json (content : Option Json) : Option PointerFileJ :=
  match content with
  | none => none
  | some (Json.obj fields) =>
    if isPointerMarker (fields.lookup "type") then pointer_from_dict fields
    else none
  | some _ => none

/-! ### Filesystem, blob store and `lfs_ops` (`sync/core/lfs_ops.py`,
`sync/core/release_api.py`)

`γ` is the abstract type of file contents; `hexFn` the sha256 hex digest,
`sizeFn` the byte size, `enc`/`dec` the pointer JSON serialisation. -/

/-- A filesystem: insertion-ordered map `path → content`. -/
def FS (γ : Type) : Type := List (String × γ)

/-- The blob store: `release tag → (asset name → content)`. Upload/download
at this level are exact: the store returns the uploaded bytes and keeps
the requested asset name (the authoritative-rename case is not exercised
by the claims). -/
structure Store (γ : Type) where
  releases : List (String × List (String × γ))
deriving DecidableEq

/-- `calculate_file_hash`: `"sha256:" + hexdigest`. -/
def fullHash {γ : Type} (hexFn : γ → String) (c : γ) : String :=
  "sha256:" ++ hexFn c

/-- `sanitize_filename`: spaces and parens → `_`, collapse runs of `_`,
then map every character outside `[a-zA-Z0-9._-]` to `_`. -/
def sanitizeChar (c : Char) : Char :=
  if c = ' ' ∨ c = '(' ∨ c = ')' then '_' else c

def collapseUnderscore : List Char → List Char
  | [] => []
  | '_' :: rest =>
    match collapseUnderscore rest with
    | '_' :: tail => '_' :: tail
    | tail => '_' :: tail
  | c :: rest => c :: collapseUnderscore rest

def allowedChar (c : Char) : Bool :=
  (('a' ≤ c && c ≤ 'z') || ('A' ≤ c && c ≤ 'Z') || ('0' ≤ c && c ≤ '9')
    || c == '.' || c == '_' || c == '-')

def sanitize_filename (filename : String) : String :=
  String.mk
    (((collapseUnderscore (filename.data.map sanitizeChar)).map
      (fun c => if allowedChar c then c else '_')))

/-- The deterministic asset name derived in `convert_to_lfs`:
first 12 hex chars of the digest, a dash, the sanitized basename. -/
def derivedAssetName {γ : Type} (hexFn : γ → String) (file_path : String) (c : γ) : String :=
  String.mk ((hexFn c).data.take 12) ++ "-" ++ sanitize_filename (basename file_path)

/-- Result of `convert_to_lfs`: updated world, success flag, and the asset
names actually uploaded (for counting upload calls). -/
structure ConvertResult (γ : Type) where
  fs : FS γ
  store : Store γ
  manifest : ManifestData
  ok : Bool
  uploads : List String

/-- `get_or_create_release`: returns the asset map of the tag, creating an
empty release when absent. -/
def getOrCreateRelease {γ : Type} (store : Store γ) (tag : String) :
    Store γ × List (String × γ) :=
  match store.releases.lookup tag with
  | some assets => (store, assets)
  | none => (⟨assocSet store.releases tag []⟩, [])

/-- Steps 3–4 of `convert_to_lfs`: get-or-create the release, then skip
the upload when an asset with the derived name already exists, else
upload the content under that name. Returns the store, the actual asset
name used, and the names uploaded. -/
def convertAssetStep {γ : Type} (store : Store γ) (release_tag asset_name : String)
    (c : γ) : Store γ × String × List String :=
  match (getOrCreateRelease store release_tag).2.lookup asset_name with
  | some _ => ((getOrCreateRelease store release_tag).1, asset_name, [])
  | none =>
    (⟨assocSet (getOrCreateRelease store release_tag).1.releases release_tag
        (assocSet (getOrCreateRelease store release_tag).2 asset_name c)⟩,
      asset_name, [asset_name])

/-- `convert_to_lfs`. Steps follow the source: hash, derive asset name,
get-or-create release, skip upload when the name already exists else
upload, write the pointer file at `path + ".pointer"`, record a manifest
version. The git-index and git-exclude bookkeeping act on the external
version-control collaborator and leave this state unchanged; the real
file is never deleted. A missing source file makes `calculate_file_hash`
raise, caught as `ok = false`. -/
def convert_to_lfs {γ : Type} (hexFn : γ → String) (sizeFn : γ → Int)
    (enc : PointerFile → γ)
    (fs : FS γ) (store : Store γ) (manifest : ManifestData)
    (file_path : String) (release_tag : String) (now : String) : ConvertResult γ :=
  match fs.lookup file_path with
  | none => ⟨fs, store, manifest, false, []⟩
  | some c =>
    let file_hash := fullHash hexFn c
    let up := convertAssetStep store release_tag (derivedAssetName hexFn file_path c) c
    let pointer : PointerFile :=
      ⟨1, file_hash, sizeFn c, basename file_path, release_tag, up.2.1⟩
    ⟨assocSet fs (file_path ++ ".pointer") (enc pointer), up.1,
      add_version manifest file_path file_hash up.2.1 (sizeFn c) now, true, up.2.2⟩

/-- Result of `restore_from_lfs`: updated filesystem, success flag, the
asset names downloaded, and the pointer actually used after asset
resolution (exposing the fallback's name/hash/size substitution). -/
structure RestoreResult (γ : Type) where
  fs : FS γ
  ok : Bool
  downloads : List String
  used : Option PointerFile

/-- `restore_from_lfs`. Steps follow the source: read + validate the
pointer, resolve the release, resolve the asset by the pointer's name
falling back to the manifest's versions newest-first, download to a temp
file, optionally verify the hash, then either keep an already-matching
destination (discarding the temp) or move the download into place. -/
def restore_from_lfs {γ : Type} (hexFn : γ → String)
    (dec : γ → Option PointerFile)
    (store : Store γ) (manifest : ManifestData) (fs : FS γ)
    (pointer_path : String) (verify_hash : Bool) : RestoreResult γ :=
  match (fs.lookup pointer_path).bind dec with
  | none => ⟨fs, false, [], none⟩
  | some p0 =>
    if !validate_pointer p0 then ⟨fs, false, [], none⟩
    else
      match store.releases.lookup p0.release_tag with
      | none => ⟨fs, false, [], none⟩
      | some assets =>
        let rel_path := strDropRight pointer_path 8
        let resolved : Option (PointerFile × γ) :=
          match assets.lookup p0.asset_name with
          | some c => some (p0, c)
          | none =>
            ((get_all_versions manifest rel_path).find?
                (fun v => (assets.lookup v.asset_name).isSome)).bind
              (fun v => (assets.lookup v.asset_name).map
                (fun c => ({ p0 with
                  asset_name := v.asset_name, hash := v.hash, size := v.size }, c)))
        match resolved with
        | none => ⟨fs, false, [], none⟩
        | some (p, c) =>
          let downloads := [p.asset_name]
          if verify_hash && !(fullHash hexFn c == p.hash) then
            ⟨fs, false, downloads, some p⟩
          else
            let actual_path := get_real_path_from_pointer pointer_path
            match fs.lookup actual_path with
            | some existing =>
              if fullHash hexFn existing == p.hash then
                ⟨fs, true, downloads, some p⟩
              else ⟨assocSet fs actual_path c, true, downloads, some p⟩
            | none => ⟨assocSet fs actual_path c, true, downloads, some p⟩

/-! ### Retry policy (`GitHubReleaseAPI._request`, `get_release`) -/

/-- What one HTTP attempt yields: a success, an HTTP status error
(`raise_for_status`), or a transport error (`httpx.RequestError`). -/
inductive Resp where
  | ok : Resp
  | httpErr (status : Nat) : Resp
  | netErr : Resp
deriving DecidableEq

/-- How `_request` ends. -/
inductive ReqOutcome where
  | success : ReqOutcome
  | httpFailure (status : Nat) : ReqOutcome
  | netFailure : ReqOutcome
  | exhausted : ReqOutcome
deriving DecidableEq

/-- `_request` summary: outcome, number of HTTP attempts issued, and the
backoff sleeps (in seconds) taken between attempts, in order. -/
structure ReqResult where
  outcome : ReqOutcome
  attempts : Nat
  sleeps : List Nat
deriving DecidableEq

/-- The `for attempt in range(max_retries)` loop of `_request`, with the
response of attempt `i` given by the oracle `resps i`. `fuel` counts the
remaining loop iterations, so the recursion is structural. -/
def requestLoop (resps : Nat → Resp) : Nat → Nat → Nat → List Nat → ReqResult
  | 0, _, count, sleeps => ⟨ReqOutcome.exhausted, count, sleeps⟩
  | fuel + 1, attempt, count, sleeps =>
    match resps attempt with
    | Resp.ok => ⟨ReqOutcome.success, count + 1, sleeps⟩
    | Resp.httpErr s =>
      if s = 404 ∧ attempt = 3 - 1 then ⟨ReqOutcome.httpFailure s, count + 1, sleeps⟩
      else if 500 ≤ s ∧ attempt < 3 - 1 then
        requestLoop resps fuel (attempt + 1) (count + 1) (sleeps ++ [2 ^ attempt])
      else ⟨ReqOutcome.httpFailure s, count + 1, sleeps⟩
    | Resp.netErr =>
      if attempt < 3 - 1 then
        requestLoop resps fuel (attempt + 1) (count + 1) (sleeps ++ [2 ^ attempt])
      else ⟨ReqOutcome.netFailure, count + 1, sleeps⟩

/-- `_request` with `max_retries = 3`. -/
def request (resps : Nat → Resp) : ReqResult :=
  requestLoop resps 3 0 0 []

/-- What `get_release` returns: the release, the normal absent result
(`None`), or a propagated exception. -/
inductive LookupResult (α : Type) where
  | found (a : α) : LookupResult α
  | absent : LookupResult α
  | error : LookupResult α
deriving DecidableEq

/-- `get_release`: runs `_request`; a 404 status error is caught and
mapped to `None`; any other failure propagates. `rel` abstracts the
decoded response body. -/
def get_release {α : Type} (resps : Nat → Resp) (rel : α) : LookupResult α :=
  match (request resps).outcome with
  | ReqOutcome.success => LookupResult.found rel
  | ReqOutcome.httpFailure 404 => LookupResult.absent
  | _ => LookupResult.error

/-! ### The periodic steady-state cycle (`SyncDaemon.pull_commit_push`) -/

/-- Abstract trace events of one `pull_commit_push` cycle. External
collaborators (git, chmod, empty-dir tracking) appear as opaque events. -/
inductive SyncEvent where
  | pull : SyncEvent
  | restoreRepair (pointer_path : String) (verify_hash : Bool) : SyncEvent
  | offloadScan : SyncEvent
  | offload (file_path : String) : SyncEvent
  | cleanup : SyncEvent
  | commit : SyncEvent
  | push : SyncEvent
deriving DecidableEq

/-- The daemon state threaded through one cycle. -/
structure SyncState (γ : Type) where
  fs : FS γ
  store : Store γ
  manifest : ManifestData

/-- The configuration fields of `Settings` the cycle consults. -/
structure DaemonConfig where
  lfs_enabled : Bool
  lfs_threshold : Int
  lfs_release_tag : String
  lfs_max_versions : Nat
  excludes : List String

/-- `is_pointer_file`: filename ends `.pointer`, or the file is small
(≤ 2KB) and parses as pointer JSON with the marker. -/
def is_pointer_file {γ : Type} (sizeFn : γ → Int) (dec : γ → Option PointerFile)
    (path : String) (c : γ) : Bool :=
  strEndsWith path ".pointer" || (decide (sizeFn c ≤ 2048) && (dec c).isSome)

/-- `scan_pointer_files`: the pointer files of the tree, in walk order. -/
def scan_pointer_files {γ : Type} (sizeFn : γ → Int) (dec : γ → Option PointerFile)
    (fs : FS γ) : List String :=
  (fs.filter (fun kv => is_pointer_file sizeFn dec kv.1 kv.2)).map (fun kv => kv.1)

/-- `should_use_lfs`: the file exists and its size exceeds the threshold. -/
def should_use_lfs (size threshold : Int) : Bool := decide (threshold < size)

/-- `scan_large_files`: non-pointer files above the threshold, excluding
paths under an excluded prefix. Directory walking is modelled as
iteration over the path-keyed map. -/
def scan_large_files {γ : Type} (sizeFn : γ → Int) (fs : FS γ)
    (threshold : Int) (excludes : List String) : List String :=
  (fs.filter (fun kv =>
    !strEndsWith kv.1 ".pointer" &&
    !(excludes.any (fun ex => strStartsWith kv.1 ex)) &&
    should_use_lfs (sizeFn kv.2) threshold)).map (fun kv => kv.1)

/-- The body of the repair loop: read the pointer (skip unreadable ones),
check whether the real file exists, and if not restore it with
`verify_hash=False` (the flag is passed literally in `pull_commit_push`). -/
def repairFoldStep {γ : Type} (hexFn : γ → String)
    (dec : γ → Option PointerFile)
    (acc : SyncState γ × List SyncEvent) (pointer_path : String) :
    SyncState γ × List SyncEvent :=
  match (acc.1.fs.lookup pointer_path).bind dec with
  | none => acc
  | some _ =>
    if ((acc.1.fs.lookup (if strEndsWith pointer_path ".pointer" then
        strDropRight pointer_path 8 else pointer_path)).isSome) then acc
    else
      (⟨(restore_from_lfs hexFn dec acc.1.store acc.1.manifest acc.1.fs
            pointer_path false).fs, acc.1.store, acc.1.manifest⟩,
        acc.2 ++ [SyncEvent.restoreRepair pointer_path false])

/-- Step 2 of the cycle: re-scan pointers after the pull and restore each
one whose real file is missing. -/
def repairStep {γ : Type} (hexFn : γ → String) (sizeFn : γ → Int)
    (dec : γ → Option PointerFile) (cfg : DaemonConfig) (st : SyncState γ) :
    SyncState γ × List SyncEvent :=
  if cfg.lfs_enabled then
    (scan_pointer_files sizeFn dec st.fs).foldl (repairFoldStep hexFn dec) (st, [])
  else (st, [])

/-- The body of the offload loop: convert one oversized file. -/
def offloadFoldStep {γ : Type} (hexFn : γ → String) (sizeFn : γ → Int)
    (enc : PointerFile → γ) (release_tag now : String)
    (acc : SyncState γ × List SyncEvent) (file_path : String) :
    SyncState γ × List SyncEvent :=
  let r := convert_to_lfs hexFn sizeFn enc acc.1.fs acc.1.store acc.1.manifest
    file_path release_tag now
  (⟨r.fs, r.store, r.manifest⟩, acc.2 ++ [SyncEvent.offload file_path])

/-- Step 3 of the cycle: `process_large_files` — scan for oversized files,
convert each to LFS, then run retention cleanup and delete the evicted
assets from the store. Returns early when LFS is disabled. -/
def processLargeFiles {γ : Type} (hexFn : γ → String) (sizeFn : γ → Int)
    (enc : PointerFile → γ) (cfg : DaemonConfig) (now : String) (st : SyncState γ) :
    SyncState γ × List SyncEvent :=
  if cfg.lfs_enabled then
    let large := scan_large_files sizeFn st.fs cfg.lfs_threshold cfg.excludes
    let afterConvert :=
      large.foldl (offloadFoldStep hexFn sizeFn enc cfg.lfs_release_tag now)
        (st, [SyncEvent.offloadScan])
    let cleaned := cleanup_all_old_versions afterConvert.1.manifest cfg.lfs_max_versions
    let store' : Store γ :=
      ⟨assocSet afterConvert.1.store.releases cfg.lfs_release_tag
        ((((getOrCreateRelease afterConvert.1.store cfg.lfs_release_tag).2)).filter
          (fun a => !(cleaned.2.any (fun kv => kv.2.contains a.1))))⟩
    (⟨afterConvert.1.fs, store', cleaned.1⟩, afterConvert.2 ++ [SyncEvent.cleanup])
  else (st, [])

/-- One full `pull_commit_push` cycle: pull (rebase, an external git
operation abstracted as `pullFn`), the restore-repair pass, the large-file
offload pass, then commit and push. -/
def pull_commit_push {γ : Type} (hexFn : γ → String) (sizeFn : γ → Int)
    (enc : PointerFile → γ) (dec : γ → Option PointerFile)
    (cfg : DaemonConfig) (now : String) (pullFn : FS γ → FS γ) (st : SyncState γ) :
    SyncState γ × List SyncEvent :=
  let st1 : SyncState γ := ⟨pullFn st.fs, st.store, st.manifest⟩
  let r2 := repairStep hexFn sizeFn dec cfg st1
  let r3 := processLargeFiles hexFn sizeFn enc cfg now r2.1
  (r3.1, SyncEvent.pull :: (r2.2 ++ r3.2 ++ [SyncEvent.commit, SyncEvent.push]))

/-! ### Association-list lemmas -/

theorem lookup_assocSet_self {β : Type} (m : List (String × β)) (k : String) (v : β) :
    (assocSet m k v).lookup k = some v := by
  induction m with
  | nil => simp [assocSet, List.lookup]
  | cons kv rest ih =>
    by_cases h : kv.1 = k
    · simp [assocSet, h, List.lookup]
    · have hb : (kv.1 == k) = false := beq_eq_false_iff_ne.mpr h
      simp only [assocSet]
      rw [hb]
      simp only [if_false, Bool.false_eq_true]
      have hb2 : (k == kv.1) = false := beq_eq_false_iff_ne.mpr (fun hh => h hh.symm)
      simp [List.lookup, hb2, ih]

theorem lookup_assocSet_ne {β : Type} (m : List (String × β)) (k k' : String) (v : β)
    (h : k' ≠ k) : (assocSet m k v).lookup k' = m.lookup k' := by
  induction m with
  | nil => simp [assocSet, List.lookup, beq_eq_false_iff_ne.mpr h]
  | cons kv rest ih =>
    by_cases hk : kv.1 = k
    · subst hk
      simp only [assocSet, beq_self_eq_true, if_true]
      simp [List.lookup, beq_eq_false_iff_ne.mpr h]
    · have hb : (kv.1 == k) = false := beq_eq_false_iff_ne.mpr hk
      simp only [assocSet]
      rw [hb]
      simp only [if_false, Bool.false_eq_true]
      by_cases hk' : k' = kv.1
      · subst hk'
        simp [List.lookup]
      · simp [List.lookup, beq_eq_false_iff_ne.mpr hk', ih]

theorem length_sortVersionsDesc (vs : List FileVersion) :
    (sortVersionsDesc vs).length = vs.length :=
  (List.perm_insertionSort tsGe vs).length_eq

/-! ### C4: retention cleanup -/

/-- C4: for a path whose record holds more than `keep` versions,
`cleanup_old_versions` leaves exactly the `keep` most recent versions by
timestamp (every retained timestamp is ≥ every evicted one, and retained
plus evicted is a permutation of the original versions) and returns
exactly the evicted versions' asset names; with `keep` or fewer versions
it returns the empty list and changes nothing. -/
theorem c4_cleanup_retention (m : ManifestData) (path : String) (keep : Nat)
    (record : FileRecord) (h : get_file_record m path = some record) :
    (keep < record.versions.length →
      ∃ kept evicted,
        (cleanup_old_versions m path keep).1.files.lookup path
            = some ⟨record.current_hash, kept⟩ ∧
        (cleanup_old_versions m path keep).2 = evicted.map (fun v => v.asset_name) ∧
        kept.length = keep ∧
        (kept ++ evicted).Perm record.versions ∧
        (∀ a ∈ kept, ∀ b ∈ evicted, strLe b.timestamp a.timestamp = true)) ∧
    (record.versions.length ≤ keep →
      cleanup_old_versions m path keep = (m, [])) := by
  constructor
  · intro hlt
    refine ⟨(sortVersionsDesc record.versions).take keep,
      (sortVersionsDesc record.versions).drop keep, ?_, ?_, ?_, ?_, ?_⟩
    · simp only [cleanup_old_versions, h, Nat.not_le.mpr hlt, if_false]
      exact lookup_assocSet_self _ _ _
    · simp only [cleanup_old_versions, h, Nat.not_le.mpr hlt, if_false]
    · rw [List.length_take, length_sortVersionsDesc]
      exact Nat.min_eq_left (Nat.le_of_lt hlt)
    · rw [List.take_append_drop]
      exact List.perm_insertionSort tsGe record.versions
    · have hs : List.Pairwise tsGe (sortVersionsDesc record.versions) :=
        List.sorted_insertionSort tsGe record.versions
      rw [← List.take_append_drop keep (sortVersionsDesc record.versions)] at hs
      exact (List.pairwise_append.mp hs).2.2
  · intro hle
    simp [cleanup_old_versions, h, hle]

/-- Concrete data shared by the manifest witnesses. -/
def vA : FileVersion := ⟨"sha256:a", "aaaa-f.bin", 5, "2024-01-01T00:00:00Z", true⟩

def vB : FileVersion := ⟨"sha256:b", "bbbb-f.bin", 6, "2024-01-02T00:00:00Z", true⟩

def vC : FileVersion := ⟨"sha256:c", "cccc-f.bin", 7, "2024-01-03T00:00:00Z", true⟩

def vD : FileVersion := ⟨"sha256:d", "dddd-f.bin", 8, "2024-01-04T00:00:00Z", true⟩

def recABCD : FileRecord := ⟨"sha256:a", [vA, vB, vC, vD]⟩

def mABCD : ManifestData := ⟨[("f.bin", recABCD)]⟩

theorem c4_cleanup_retention_witness :
    (2 < recABCD.versions.length →
      ∃ kept evicted,
        (cleanup_old_versions mABCD "f.bin" 2).1.files.lookup "f.bin"
            = some ⟨recABCD.current_hash, kept⟩ ∧
        (cleanup_old_versions mABCD "f.bin" 2).2 = evicted.map (fun v => v.asset_name) ∧
        kept.length = 2 ∧
        (kept ++ evicted).Perm recABCD.versions ∧
        (∀ a ∈ kept, ∀ b ∈ evicted, strLe b.timestamp a.timestamp = true)) ∧
    (recABCD.versions.length ≤ 2 →
      cleanup_old_versions mABCD "f.bin" 2 = (mABCD, [])) :=
  c4_cleanup_retention mABCD "f.bin" 2 recABCD rfl

/-! ### C5: current-version lookup and its fallback -/

theorem lexLe_refl : ∀ l, lexLe l l = true := by
  intro l
  induction l with
  | nil => rfl
  | cons c cs ih => simp [lexLe, ih]

/-- In a newest-first list, the last element's timestamp is minimal. -/
theorem getLast_tsGe_min {l : List FileVersion} (hp : List.Pairwise tsGe l)
    (v : FileVersion) (hv : l.getLast? = some v) :
    ∀ w ∈ l, strLe v.timestamp w.timestamp = true := by
  induction l with
  | nil => simp at hv
  | cons x xs ih =>
    cases xs with
    | nil =>
      simp only [List.getLast?] at hv
      intro w hw
      simp only [List.mem_singleton] at hw
      subst hw
      cases hv
      exact lexLe_refl _
    | cons y ys =>
      rw [List.getLast?_cons_cons] at hv
      have hmem : v ∈ y :: ys := by
        have : (y :: ys).getLast?.isSome := by rw [hv]; rfl
        have hne : y :: ys ≠ [] := by simp
        have := List.getLast?_eq_getLast (y :: ys) hne ▸ hv
        rw [List.getLast?_eq_getLast (y :: ys) hne] at hv
        cases hv
        exact List.getLast_mem hne
      intro w hw
      rcases List.mem_cons.mp hw with hwx | hwxs
      · subst hwx
        exact (List.pairwise_cons.mp hp).1 v hmem
      · exact ih (List.pairwise_cons.mp hp).2 hv w hwxs

/-- C5 counterexample: after `cleanup_old_versions` truncates the record,
the fallback of `get_current_version` (`versions[-1]`) returns the oldest
retained version `vB`, not the most recently appended / newest version
`vD`; the cleaned list is stored newest-first. -/
theorem c5_fallback_counterexample :
    get_current_version (cleanup_old_versions mABCD "f.bin" 3).1 "f.bin" = some vB ∧
    (get_file_record (cleanup_old_versions mABCD "f.bin" 3).1 "f.bin").map
      (fun r => r.versions) = some [vD, vC, vB] ∧
    (∀ v ∈ [vD, vC, vB], strLe v.timestamp vD.timestamp = true) ∧
    vB ≠ vD := by
  refine ⟨?_, ?_, ?_, ?_⟩ <;> decide

/-- C5 amended: `get_current_version` returns the first version whose hash
equals `current_hash` when one exists, and otherwise the *last element of
the stored list*. Before any cleanup that is the most recently appended
version, but `cleanup_old_versions` stores the retained versions
newest-first, so after a truncating cleanup the fallback yields the
version with the *minimal* timestamp among those retained. -/
theorem c5_current_version_amended (m : ManifestData) (path : String)
    (record : FileRecord) (h : get_file_record m path = some record) :
    (∀ v, record.versions.find? (fun v => v.hash == record.current_hash) = some v →
      get_current_version m path = some v) ∧
    (record.versions.find? (fun v => v.hash == record.current_hash) = none →
      get_current_version m path = record.versions.getLast?) ∧
    (∀ keep, keep < record.versions.length →
      ∀ r', get_file_record (cleanup_old_versions m path keep).1 path = some r' →
        List.Pairwise tsGe r'.versions ∧
        (r'.versions.find? (fun v => v.hash == r'.current_hash) = none →
          ∀ v, get_current_version (cleanup_old_versions m path keep).1 path = some v →
            ∀ w ∈ r'.versions, strLe v.timestamp w.timestamp = true)) := by
  refine ⟨?_, ?_, ?_⟩
  · intro v hv
    simp [get_current_version, h, hv]
  · intro hnone
    simp [get_current_version, h, hnone]
  · intro keep hlt r' hr'
    have hclean : (cleanup_old_versions m path keep).1.files.lookup path
        = some ⟨record.current_hash, (sortVersionsDesc record.versions).take keep⟩ := by
      simp only [cleanup_old_versions, h, Nat.not_le.mpr hlt, if_false]
      exact lookup_assocSet_self _ _ _
    have hr'eq : r' = ⟨record.current_hash, (sortVersionsDesc record.versions).take keep⟩ := by
      rw [get_file_record, hclean] at hr'
      exact (Option.some.injEq _ _).mp hr' |>.symm
    have hpw : List.Pairwise tsGe r'.versions := by
      rw [hr'eq]
      exact List.Pairwise.sublist (List.take_sublist keep _)
        (List.sorted_insertionSort tsGe record.versions)
    refine ⟨hpw, ?_⟩
    intro hnone v hv w hw
    have hget : get_current_version (cleanup_old_versions m path keep).1 path
        = r'.versions.getLast? := by
      simp only [get_current_version, get_file_record, hclean, ← hr'eq, hnone]
    rw [hget] at hv
    exact getLast_tsGe_min hpw v hv w hw

theorem c5_current_version_amended_witness :
    (∀ v, recABCD.versions.find? (fun v => v.hash == recABCD.current_hash) = some v →
      get_current_version mABCD "f.bin" = some v) ∧
    (recABCD.versions.find? (fun v => v.hash == recABCD.current_hash) = none →
      get_current_version mABCD "f.bin" = recABCD.versions.getLast?) ∧
    (∀ keep, keep < recABCD.versions.length →
      ∀ r', get_file_record (cleanup_old_versions mABCD "f.bin" keep).1 "f.bin" = some r' →
        List.Pairwise tsGe r'.versions ∧
        (r'.versions.find? (fun v => v.hash == r'.current_hash) = none →
          ∀ v, get_current_version (cleanup_old_versions mABCD "f.bin" keep).1 "f.bin" = some v →
            ∀ w ∈ r'.versions, strLe v.timestamp w.timestamp = true)) :=
  c5_current_version_amended mABCD "f.bin" recABCD rfl

/-! ### C8: pointer parsing failures -/

/-- `from_dict` raises `KeyError` as soon as one of the five mandatory
keys is absent. -/
theorem pointer_from_dict_eq_none (fields : List (String × Json))
    (h : fields.lookup "hash" = none ∨ fields.lookup "size" = none ∨
      fields.lookup "filename" = none ∨ fields.lookup "release_tag" = none ∨
      fields.lookup "asset_name" = none) :
    pointer_from_dict fields = none := by
  unfold pointer_from_dict
  rcases hh : fields.lookup "hash" with _ | vh <;>
    rcases hs : fields.lookup "size" with _ | vs <;>
      rcases hf : fields.lookup "filename" with _ | vf <;>
        rcases hr : fields.lookup "release_tag" with _ | vr <;>
          rcases ha : fields.lookup "asset_name" with _ | va <;>
            simp_all

/-- C8 counterexample: a JSON object with the pointer marker and all
fields except `version` parses successfully (with `version` defaulted to
`1`), so `read_pointer` does not fail on a missing `version` field. -/
theorem c8_missing_version_counterexample :
    read_pointer_json (some (Json.obj
      [("type", Json.str "lfs-pointer"), ("hash", Json.str "sha256:ab"),
        ("size", Json.num 5), ("filename", Json.str "f.bin"),
        ("release_tag", Json.str "large-files-v1"),
        ("asset_name", Json.str "ab-f.bin")]))
      = some ⟨Json.num 1, Json.str "sha256:ab", Json.num 5, Json.str "f.bin",
          Json.str "large-files-v1", Json.str "ab-f.bin"⟩ ∧
    (read_pointer_json (some (Json.obj
      [("type", Json.str "lfs-pointer"), ("hash", Json.str "sha256:ab"),
        ("size", Json.num 5), ("filename", Json.str "f.bin"),
        ("release_tag", Json.str "large-files-v1"),
        ("asset_name", Json.str "ab-f.bin")]))).isSome = true :=
  ⟨rfl, rfl⟩

/-- C8 amended: `read_pointer` fails (returns `None`) on unparseable
content, on JSON that is not an object, on a missing or wrong `type`
discriminator, and on a missing `hash`, `size`, `filename`, `release_tag`
or `asset_name` field; a missing `version` field does not fail but
defaults to `1`. -/
theorem c8_read_pointer_amended (content : Option Json) :
    (content = none → read_pointer_json content = none) ∧
    (∀ j, content = some j → (∀ fields, j ≠ Json.obj fields) →
      read_pointer_json content = none) ∧
    (∀ fields, content = some (Json.obj fields) →
      (isPointerMarker (fields.lookup "type") = false →
        read_pointer_json content = none) ∧
      ((fields.lookup "hash" = none ∨ fields.lookup "size" = none ∨
        fields.lookup "filename" = none ∨ fields.lookup "release_tag" = none ∨
        fields.lookup "asset_name" = none) → read_pointer_json content = none) ∧
      (∀ vh vs vf vr va, fields.lookup "hash" = some vh →
        fields.lookup "size" = some vs → fields.lookup "filename" = some vf →
        fields.lookup "release_tag" = some vr → fields.lookup "asset_name" = some va →
        isPointerMarker (fields.lookup "type") = true →
        read_pointer_json content
          = some ⟨(fields.lookup "version").getD (Json.num 1), vh, vs, vf, vr, va⟩)) := by
  refine ⟨?_, ?_, ?_⟩
  · intro h; rw [h]; rfl
  · intro j hj hno
    rw [hj]
    cases j with
    | obj fields => exact absurd rfl (hno fields)
    | null => rfl
    | bool b => rfl
    | num n => rfl
    | str s => rfl
    | arr xs => rfl
  · intro fields hf
    subst hf
    refine ⟨?_, ?_, ?_⟩
    · intro hm
      simp [read_pointer_json, hm]
    · intro h
      simp only [read_pointer_json]
      rw [pointer_from_dict_eq_none fields h]
      split <;> rfl
    · intro vh vs vf vr va hh hs hfn hr ha hm
      simp [read_pointer_json, hm, pointer_from_dict, hh, hs, hfn, hr, ha]

theorem c8_read_pointer_amended_witness :
    read_pointer_json (some (Json.obj [("type", Json.str "lfs-pointer")])) = none :=
  ((c8_read_pointer_amended (some (Json.obj [("type", Json.str "lfs-pointer")]))).2.2
    [("type", Json.str "lfs-pointer")] rfl).2.1 (Or.inl rfl)

/-! ### C6: retry policy of the blob-store client -/

theorem requestLoop_net_step (resps : Nat → Resp) (fuel attempt count : Nat)
    (sleeps : List Nat) (h : resps attempt = Resp.netErr) (hlt : attempt < 2) :
    requestLoop resps (fuel + 1) attempt count sleeps
      = requestLoop resps fuel (attempt + 1) (count + 1) (sleeps ++ [2 ^ attempt]) := by
  simp only [requestLoop, h]
  rw [if_pos hlt]

theorem requestLoop_5xx_step (resps : Nat → Resp) (fuel attempt count : Nat)
    (sleeps : List Nat) (s : Nat) (h : resps attempt = Resp.httpErr s)
    (hs : 500 ≤ s) (hlt : attempt < 2) :
    requestLoop resps (fuel + 1) attempt count sleeps
      = requestLoop resps fuel (attempt + 1) (count + 1) (sleeps ++ [2 ^ attempt]) := by
  simp only [requestLoop, h]
  rw [if_neg (by omega), if_pos (by exact ⟨hs, hlt⟩)]

theorem requestLoop_last_net (resps : Nat → Resp) (fuel count : Nat)
    (sleeps : List Nat) (h : resps 2 = Resp.netErr) :
    requestLoop resps (fuel + 1) 2 count sleeps
      = ⟨ReqOutcome.netFailure, count + 1, sleeps⟩ := by
  simp only [requestLoop, h]
  rw [if_neg (by omega)]

theorem requestLoop_last_5xx (resps : Nat → Resp) (fuel count : Nat)
    (sleeps : List Nat) (s : Nat) (h : resps 2 = Resp.httpErr s) (hs : 500 ≤ s) :
    requestLoop resps (fuel + 1) 2 count sleeps
      = ⟨ReqOutcome.httpFailure s, count + 1, sleeps⟩ := by
  simp only [requestLoop, h]
  rw [if_neg (by omega), if_neg (by omega)]

/-- C6: transient failures (network errors and 5xx responses, in any
combination) are retried up to 3 total attempts with `2^attempt` seconds
of backoff between attempts, and surfaced only after exhaustion; a 404 on
`get_release` is caught into the normal absent result after a single
attempt; any other 4xx raises immediately with no retry and no backoff. -/
theorem c6_retry_policy {α : Type} (resps : Nat → Resp) (rel : α) :
    ((∀ i, i < 3 → resps i = Resp.netErr ∨ ∃ s, 500 ≤ s ∧ resps i = Resp.httpErr s) →
      (request resps).attempts = 3 ∧ (request resps).sleeps = [1, 2] ∧
      ((request resps).outcome = ReqOutcome.netFailure ∨
        ∃ s, 500 ≤ s ∧ (request resps).outcome = ReqOutcome.httpFailure s)) ∧
    (resps 0 = Resp.httpErr 404 →
      get_release resps rel = LookupResult.absent ∧
      (request resps).attempts = 1 ∧ (request resps).sleeps = []) ∧
    (∀ s, resps 0 = Resp.httpErr s → 400 ≤ s → s < 500 → s ≠ 404 →
      (request resps).outcome = ReqOutcome.httpFailure s ∧
      (request resps).attempts = 1 ∧ (request resps).sleeps = []) := by
  refine ⟨?_, ?_, ?_⟩
  · intro h
    have step01 : request resps = requestLoop resps 2 1 1 [1] := by
      rcases h 0 (by omega) with h0 | ⟨s0, hs0, h0⟩
      · exact requestLoop_net_step resps 2 0 0 [] h0 (by omega)
      · exact requestLoop_5xx_step resps 2 0 0 [] s0 h0 hs0 (by omega)
    have step12 : requestLoop resps 2 1 1 [1] = requestLoop resps 1 2 2 [1, 2] := by
      rcases h 1 (by omega) with h1 | ⟨s1, hs1, h1⟩
      · exact requestLoop_net_step resps 1 1 1 [1] h1 (by omega)
      · exact requestLoop_5xx_step resps 1 1 1 [1] s1 h1 hs1 (by omega)
    rcases h 2 (by omega) with h2 | ⟨s2, hs2, h2⟩
    · have step2 : requestLoop resps 1 2 2 [1, 2]
          = ⟨ReqOutcome.netFailure, 3, [1, 2]⟩ :=
        requestLoop_last_net resps 0 2 [1, 2] h2
      rw [step01, step12, step2]
      exact ⟨rfl, rfl, Or.inl rfl⟩
    · have step2 : requestLoop resps 1 2 2 [1, 2]
          = ⟨ReqOutcome.httpFailure s2, 3, [1, 2]⟩ :=
        requestLoop_last_5xx resps 0 2 [1, 2] s2 h2 hs2
      rw [step01, step12, step2]
      exact ⟨rfl, rfl, Or.inr ⟨s2, hs2, rfl⟩⟩
  · intro h0
    have hreq : request resps = ⟨ReqOutcome.httpFailure 404, 1, []⟩ := by
      simp only [request, requestLoop, h0]
      rw [if_neg (by omega), if_neg (by omega)]
    refine ⟨?_, ?_, ?_⟩
    · simp [get_release, hreq]
    · rw [hreq]
    · rw [hreq]
  · intro s h0 h400 h500 h404
    have hreq : request resps = ⟨ReqOutcome.httpFailure s, 1, []⟩ := by
      simp only [request, requestLoop, h0]
      rw [if_neg (by omega), if_neg (by omega)]
    rw [hreq]
    exact ⟨rfl, rfl, rfl⟩

theorem c6_retry_policy_witness :
    (request (fun _ => Resp.netErr)).attempts = 3 ∧
    (request (fun _ => Resp.netErr)).sleeps = [1, 2] ∧
    ((request (fun _ => Resp.netErr)).outcome = ReqOutcome.netFailure ∨
      ∃ s, 500 ≤ s ∧
        (request (fun _ => Resp.netErr)).outcome = ReqOutcome.httpFailure s) :=
  (c6_retry_policy (fun _ => Resp.netErr) (0 : Nat)).1 (fun _ _ => Or.inl rfl)

/-! ### String and filesystem lemmas for the offload/restore proofs -/

theorem string_mk_data (s : String) : String.mk s.data = s := by
  cases s
  rfl

theorem isPrefixOf_append_self (l m : List Char) : l.isPrefixOf (l ++ m) = true := by
  induction l with
  | nil => simp [List.isPrefixOf]
  | cons c cs ih => simp [List.isPrefixOf, ih]

theorem strStartsWith_append (pre rest : String) :
    strStartsWith (pre ++ rest) pre = true := by
  unfold strStartsWith
  rw [String.data_append]
  exact isPrefixOf_append_self _ _

theorem strEndsWith_append (s suf : String) : strEndsWith (s ++ suf) suf = true := by
  unfold strEndsWith
  unfold List.isSuffixOf
  rw [String.data_append, List.reverse_append]
  exact isPrefixOf_append_self _ _

theorem strDropRight_append_pointer (s : String) :
    strDropRight (s ++ ".pointer") 8 = s := by
  unfold strDropRight
  rw [String.data_append]
  have hlen : (s.data ++ ".pointer".data).length - 8 = s.data.length := by
    rw [List.length_append]
    rfl
  rw [hlen, List.take_left, string_mk_data]

theorem get_real_path_append_pointer (s : String) :
    get_real_path_from_pointer (s ++ ".pointer") = s := by
  unfold get_real_path_from_pointer
  rw [strEndsWith_append, if_pos rfl, strDropRight_append_pointer]

theorem ne_append_pointer (s : String) : s ≠ s ++ ".pointer" := by
  intro h
  have hd : s.data = s.data ++ ".pointer".data := by
    conv_lhs => rw [h]
    rw [String.data_append]
  have hlen := congrArg List.length hd
  rw [List.length_append] at hlen
  have h8 : (".pointer" : String).data.length = 8 := rfl
  omega

theorem dash_append_ne_empty (x y : String) : x ++ "-" ++ y ≠ "" := by
  intro h
  have hd : (x ++ "-").data ++ y.data = [] := by
    rw [← String.data_append, h]
  have hlen := congrArg List.length hd
  rw [List.length_append, String.data_append, List.length_append] at hlen
  have h1 : ("-" : String).data.length = 1 := rfl
  have h2 : (['-'] : List Char).length = 1 := rfl
  simp only [List.length_nil] at hlen
  omega

theorem derivedAssetName_ne_empty {γ : Type} (hexFn : γ → String)
    (file_path : String) (c : γ) : derivedAssetName hexFn file_path c ≠ "" :=
  dash_append_ne_empty _ _

/-- `validate_pointer` passes exactly when its four checks pass. -/
theorem validate_pointer_true (p : PointerFile)
    (h1 : strStartsWith p.hash "sha256:" = true) (h2 : 0 < p.size)
    (h3 : p.filename ≠ "") (h4 : p.asset_name ≠ "") (h5 : p.release_tag ≠ "") :
    validate_pointer p = true := by
  simp [validate_pointer, h1, h2, beq_eq_false_iff_ne.mpr h3,
    beq_eq_false_iff_ne.mpr h4, beq_eq_false_iff_ne.mpr h5]

/-- Removal of a real file (`os.remove`). -/
def fsRemove {γ : Type} (fs : FS γ) (path : String) : FS γ :=
  fs.filter (fun kv => !(kv.1 == path))

theorem lookup_fsRemove_self {γ : Type} (fs : FS γ) (path : String) :
    (fsRemove fs path).lookup path = none := by
  unfold fsRemove
  induction fs with
  | nil => rfl
  | cons kv rest ih =>
    rw [List.filter_cons]
    by_cases h : kv.1 = path
    · rw [beq_iff_eq.mpr h]
      simpa using ih
    · rw [beq_eq_false_iff_ne.mpr h]
      have hq : (path == kv.1) = false := beq_eq_false_iff_ne.mpr (fun hh => h hh.symm)
      simpa [List.lookup, hq] using ih

theorem lookup_fsRemove_ne {γ : Type} (fs : FS γ) (path q : String) (h : q ≠ path) :
    (fsRemove fs path).lookup q = fs.lookup q := by
  unfold fsRemove
  induction fs with
  | nil => rfl
  | cons kv rest ih =>
    rw [List.filter_cons]
    by_cases hk : kv.1 = path
    · rw [beq_iff_eq.mpr hk]
      have hq : (q == kv.1) = false := beq_eq_false_iff_ne.mpr (fun hh => h (hh.trans hk))
      simp only [Bool.not_true, Bool.false_eq_true, if_false, ih]
      simp [List.lookup, hq]
    · rw [beq_eq_false_iff_ne.mpr hk]
      by_cases hq : q = kv.1
      · simp [List.lookup, beq_iff_eq.mpr hq]
      · simp only [Bool.not_false, if_pos rfl]
        simp [List.lookup, beq_eq_false_iff_ne.mpr hq, ih]

/-! ### C1: offload, delete, restore round trip -/

theorem getOrCreateRelease_lookup {γ : Type} (store : Store γ) (tag : String) :
    (getOrCreateRelease store tag).1.releases.lookup tag
      = some (getOrCreateRelease store tag).2 := by
  unfold getOrCreateRelease
  cases h : store.releases.lookup tag with
  | some assets => simp [h]
  | none => simp [h, lookup_assocSet_self]

theorem convertAssetStep_absent {γ : Type} (store : Store γ) (tag name : String)
    (c : γ) (h : (getOrCreateRelease store tag).2.lookup name = none) :
    convertAssetStep store tag name c
      = (⟨assocSet (getOrCreateRelease store tag).1.releases tag
            (assocSet (getOrCreateRelease store tag).2 name c)⟩, name, [name]) := by
  unfold convertAssetStep
  rw [h]

theorem convertAssetStep_present {γ : Type} (store : Store γ) (tag name : String)
    (c c' : γ) (h : (getOrCreateRelease store tag).2.lookup name = some c') :
    convertAssetStep store tag name c = ((getOrCreateRelease store tag).1, name, []) := by
  unfold convertAssetStep
  rw [h]

/-- C1: offloading a file uploads its content, leaves a pointer at
`path + ".pointer"` recording the content hash; after the real file is
removed, `restore_from_lfs` on that pointer succeeds and recreates the
file at the original path with the very content whose full hash equals
the hash recorded in the pointer. -/
theorem c1_round_trip {γ : Type} (hexFn : γ → String) (sizeFn : γ → Int)
    (enc : PointerFile → γ) (dec : γ → Option PointerFile)
    (hdec : ∀ q, dec (enc q) = some q)
    (fs : FS γ) (store : Store γ) (manifest : ManifestData)
    (path tag now : String) (c : γ)
    (hfs : fs.lookup path = some c)
    (hsize : 0 < sizeFn c)
    (hbase : basename path ≠ "")
    (htag : tag ≠ "")
    (habsent : (getOrCreateRelease store tag).2.lookup
        (derivedAssetName hexFn path c) = none) :
    (convert_to_lfs hexFn sizeFn enc fs store manifest path tag now).ok = true ∧
    (convert_to_lfs hexFn sizeFn enc fs store manifest path tag now).uploads
        = [derivedAssetName hexFn path c] ∧
    ∃ p : PointerFile,
      (fsRemove (convert_to_lfs hexFn sizeFn enc fs store manifest path tag now).fs
          path).lookup (path ++ ".pointer") = some (enc p) ∧
      p.hash = fullHash hexFn c ∧
      (restore_from_lfs hexFn dec
          (convert_to_lfs hexFn sizeFn enc fs store manifest path tag now).store
          (convert_to_lfs hexFn sizeFn enc fs store manifest path tag now).manifest
          (fsRemove (convert_to_lfs hexFn sizeFn enc fs store manifest path tag now).fs
            path)
          (path ++ ".pointer") true).ok = true ∧
      (restore_from_lfs hexFn dec
          (convert_to_lfs hexFn sizeFn enc fs store manifest path tag now).store
          (convert_to_lfs hexFn sizeFn enc fs store manifest path tag now).manifest
          (fsRemove (convert_to_lfs hexFn sizeFn enc fs store manifest path tag now).fs
            path)
          (path ++ ".pointer") true).fs.lookup path = some c ∧
      fullHash hexFn c = p.hash := by
  have hup := convertAssetStep_absent store tag (derivedAssetName hexFn path c) c habsent
  have hconv : convert_to_lfs hexFn sizeFn enc fs store manifest path tag now
      = ⟨assocSet fs (path ++ ".pointer")
            (enc ⟨1, fullHash hexFn c, sizeFn c, basename path, tag,
              derivedAssetName hexFn path c⟩),
          ⟨assocSet (getOrCreateRelease store tag).1.releases tag
            (assocSet (getOrCreateRelease store tag).2
              (derivedAssetName hexFn path c) c)⟩,
          add_version manifest path (fullHash hexFn c) (derivedAssetName hexFn path c)
            (sizeFn c) now,
          true, [derivedAssetName hexFn path c]⟩ := by
    simp only [convert_to_lfs, hfs, hup]
  rw [hconv]
  refine ⟨rfl, rfl, ⟨1, fullHash hexFn c, sizeFn c, basename path, tag,
    derivedAssetName hexFn path c⟩, ?_, rfl, ?_⟩
  · rw [lookup_fsRemove_ne _ _ _ (Ne.symm (ne_append_pointer path))]
    exact lookup_assocSet_self _ _ _
  · have hp1 : (fsRemove (assocSet fs (path ++ ".pointer")
        (enc ⟨1, fullHash hexFn c, sizeFn c, basename path, tag,
          derivedAssetName hexFn path c⟩)) path).lookup (path ++ ".pointer")
        = some (enc ⟨1, fullHash hexFn c, sizeFn c, basename path, tag,
          derivedAssetName hexFn path c⟩) := by
      rw [lookup_fsRemove_ne _ _ _ (Ne.symm (ne_append_pointer path))]
      exact lookup_assocSet_self _ _ _
    have hp0 : (fsRemove (assocSet fs (path ++ ".pointer")
        (enc ⟨1, fullHash hexFn c, sizeFn c, basename path, tag,
          derivedAssetName hexFn path c⟩)) path).lookup path = none :=
      lookup_fsRemove_self _ _
    have hval : validate_pointer ⟨1, fullHash hexFn c, sizeFn c, basename path, tag,
        derivedAssetName hexFn path c⟩ = true := by
      refine validate_pointer_true _ ?_ hsize hbase
        (derivedAssetName_ne_empty hexFn path c) htag
      unfold fullHash
      exact strStartsWith_append _ _
    have hrest : restore_from_lfs hexFn dec
        ⟨assocSet (getOrCreateRelease store tag).1.releases tag
          (assocSet (getOrCreateRelease store tag).2
            (derivedAssetName hexFn path c) c)⟩
        (add_version manifest path (fullHash hexFn c) (derivedAssetName hexFn path c)
          (sizeFn c) now)
        (fsRemove (assocSet fs (path ++ ".pointer")
          (enc ⟨1, fullHash hexFn c, sizeFn c, basename path, tag,
            derivedAssetName hexFn path c⟩)) path)
        (path ++ ".pointer") true
        = ⟨assocSet (fsRemove (assocSet fs (path ++ ".pointer")
            (enc ⟨1, fullHash hexFn c, sizeFn c, basename path, tag,
              derivedAssetName hexFn path c⟩)) path) path c, true,
            [derivedAssetName hexFn path c],
            some ⟨1, fullHash hexFn c, sizeFn c, basename path, tag,
              derivedAssetName hexFn path c⟩⟩ := by
      simp only [restore_from_lfs, hp1, Option.bind, hdec, hval, Bool.not_true,
        Bool.false_eq_true, if_false, lookup_assocSet_self, beq_self_eq_true,
        Bool.and_true, Bool.true_and, get_real_path_append_pointer, hp0]
    rw [hrest]
    exact ⟨rfl, lookup_assocSet_self _ _ _, rfl⟩

/-! ### Concrete instantiation used by the witnesses -/

/-- Concrete file contents for witnesses: raw payloads identified by a
number, or an encoded pointer file. -/
inductive CBytes where
  | raw (n : Nat) : CBytes
  | ptr (p : PointerFile) : CBytes
deriving DecidableEq

/-- Concrete hex digest: distinct for distinct raw payloads. -/
def cHex : CBytes → String
  | CBytes.raw n => String.mk (List.replicate (n + 1) 'a')
  | CBytes.ptr _ => "ff"

/-- Concrete sizes: raw payloads are large, encoded pointers tiny. -/
def cSize : CBytes → Int
  | CBytes.raw n => (n : Int) + 1000
  | CBytes.ptr _ => 100

def cEnc : PointerFile → CBytes := CBytes.ptr

def cDec : CBytes → Option PointerFile
  | CBytes.ptr p => some p
  | CBytes.raw _ => none

theorem cDec_cEnc (q : PointerFile) : cDec (cEnc q) = some q := rfl

theorem c1_round_trip_witness :
    (convert_to_lfs cHex cSize cEnc [("d/f.bin", CBytes.raw 1)] ⟨[]⟩ ⟨[]⟩
        "d/f.bin" "large-files-v1" "2024-01-01T00:00:00Z").ok = true ∧
    (convert_to_lfs cHex cSize cEnc [("d/f.bin", CBytes.raw 1)] ⟨[]⟩ ⟨[]⟩
        "d/f.bin" "large-files-v1" "2024-01-01T00:00:00Z").uploads
        = [derivedAssetName cHex "d/f.bin" (CBytes.raw 1)] ∧
    ∃ p : PointerFile,
      (fsRemove (convert_to_lfs cHex cSize cEnc [("d/f.bin", CBytes.raw 1)] ⟨[]⟩ ⟨[]⟩
          "d/f.bin" "large-files-v1" "2024-01-01T00:00:00Z").fs
          "d/f.bin").lookup ("d/f.bin" ++ ".pointer") = some (cEnc p) ∧
      p.hash = fullHash cHex (CBytes.raw 1) ∧
      (restore_from_lfs cHex cDec
          (convert_to_lfs cHex cSize cEnc [("d/f.bin", CBytes.raw 1)] ⟨[]⟩ ⟨[]⟩
            "d/f.bin" "large-files-v1" "2024-01-01T00:00:00Z").store
          (convert_to_lfs cHex cSize cEnc [("d/f.bin", CBytes.raw 1)] ⟨[]⟩ ⟨[]⟩
            "d/f.bin" "large-files-v1" "2024-01-01T00:00:00Z").manifest
          (fsRemove (convert_to_lfs cHex cSize cEnc [("d/f.bin", CBytes.raw 1)] ⟨[]⟩ ⟨[]⟩
            "d/f.bin" "large-files-v1" "2024-01-01T00:00:00Z").fs
            "d/f.bin")
          ("d/f.bin" ++ ".pointer") true).ok = true ∧
      (restore_from_lfs cHex cDec
          (convert_to_lfs cHex cSize cEnc [("d/f.bin", CBytes.raw 1)] ⟨[]⟩ ⟨[]⟩
            "d/f.bin" "large-files-v1" "2024-01-01T00:00:00Z").store
          (convert_to_lfs cHex cSize cEnc [("d/f.bin", CBytes.raw 1)] ⟨[]⟩ ⟨[]⟩
            "d/f.bin" "large-files-v1" "2024-01-01T00:00:00Z").manifest
          (fsRemove (convert_to_lfs cHex cSize cEnc [("d/f.bin", CBytes.raw 1)] ⟨[]⟩ ⟨[]⟩
            "d/f.bin" "large-files-v1" "2024-01-01T00:00:00Z").fs
            "d/f.bin")
          ("d/f.bin" ++ ".pointer") true).fs.lookup "d/f.bin" = some (CBytes.raw 1) ∧
      fullHash cHex (CBytes.raw 1) = p.hash :=
  c1_round_trip cHex cSize cEnc cDec cDec_cEnc
    [("d/f.bin", CBytes.raw 1)] ⟨[]⟩ ⟨[]⟩ "d/f.bin" "large-files-v1"
    "2024-01-01T00:00:00Z" (CBytes.raw 1) rfl (by decide) (by decide) (by decide) rfl

/-! ### C3: idempotent re-offload of unchanged content -/

theorem convertAssetStep_name {γ : Type} (store : Store γ) (tag name : String) (c : γ) :
    (convertAssetStep store tag name c).2.1 = name := by
  unfold convertAssetStep
  cases h : (getOrCreateRelease store tag).2.lookup name <;> simp [h]

theorem getOrCreateRelease_of_lookup {γ : Type} (store : Store γ) (tag : String)
    (assets : List (String × γ)) (h : store.releases.lookup tag = some assets) :
    getOrCreateRelease store tag = (store, assets) := by
  unfold getOrCreateRelease
  rw [h]

/-- After `convertAssetStep`, the store always holds an asset under the
derived name (either the pre-existing one or the fresh upload). -/
theorem convertAssetStep_keeps_asset {γ : Type} (store : Store γ) (tag name : String)
    (c : γ) :
    ∃ c', (getOrCreateRelease (convertAssetStep store tag name c).1 tag).2.lookup name
      = some c' := by
  cases h : (getOrCreateRelease store tag).2.lookup name with
  | some c' =>
    rw [convertAssetStep_present store tag name c c' h]
    refine ⟨c', ?_⟩
    rw [getOrCreateRelease_of_lookup _ _ _ (getOrCreateRelease_lookup store tag)]
    exact h
  | none =>
    rw [convertAssetStep_absent store tag name c h]
    refine ⟨c, ?_⟩
    rw [getOrCreateRelease_of_lookup _ _ _ (lookup_assocSet_self _ _ _)]
    exact lookup_assocSet_self _ _ _

/-- After `add_version`, the record of the path has `current_hash` set to
the added hash and some version carrying that hash. -/
theorem add_version_has_hash (m : ManifestData) (path hv name : String)
    (size : Int) (now : String) :
    ∃ vs, get_file_record (add_version m path hv name size now) path = some ⟨hv, vs⟩ ∧
      vs.any (fun v => v.hash == hv) = true := by
  unfold add_version get_file_record
  cases hm : m.files.lookup path with
  | none =>
    refine ⟨[⟨hv, name, size, now, true⟩], lookup_assocSet_self _ _ _, ?_⟩
    simp
  | some record =>
    by_cases hany : record.versions.any (fun v => v.hash == hv) = true
    · refine ⟨record.versions, ?_, hany⟩
      simp only [hany, if_true, if_pos rfl]
      exact lookup_assocSet_self _ _ _
    · refine ⟨record.versions ++ [⟨hv, name, size, now, true⟩], ?_, ?_⟩
      · simp only [Bool.not_eq_true] at hany
        simp only [hany, Bool.false_eq_true, if_false, if_pos rfl]
        exact lookup_assocSet_self _ _ _
      · simp [List.any_append]

/-- C3: re-running offload on an unchanged file performs zero uploads
(the deterministically named asset is found and reused) and leaves the
path's manifest record unchanged (no new version appended). -/
theorem c3_offload_idempotent {γ : Type} (hexFn : γ → String) (sizeFn : γ → Int)
    (enc : PointerFile → γ)
    (fs : FS γ) (store : Store γ) (manifest : ManifestData)
    (path tag now1 now2 : String) (c : γ)
    (hfs : fs.lookup path = some c)
    (r1 : ConvertResult γ)
    (hr1 : r1 = convert_to_lfs hexFn sizeFn enc fs store manifest path tag now1) :
    (convert_to_lfs hexFn sizeFn enc r1.fs r1.store r1.manifest path tag now2).ok
        = true ∧
    (convert_to_lfs hexFn sizeFn enc r1.fs r1.store r1.manifest path tag now2).uploads
        = [] ∧
    get_file_record
        (convert_to_lfs hexFn sizeFn enc r1.fs r1.store r1.manifest path tag now2).manifest
        path
      = get_file_record r1.manifest path := by
  have hname := convertAssetStep_name store tag (derivedAssetName hexFn path c) c
  have hr1fs : r1.fs = assocSet fs (path ++ ".pointer")
      (enc ⟨1, fullHash hexFn c, sizeFn c, basename path, tag,
        (convertAssetStep store tag (derivedAssetName hexFn path c) c).2.1⟩) := by
    rw [hr1]
    simp only [convert_to_lfs, hfs]
  have hr1store : r1.store = (convertAssetStep store tag (derivedAssetName hexFn path c) c).1 := by
    rw [hr1]
    simp only [convert_to_lfs, hfs]
  have hr1manifest : r1.manifest = add_version manifest path (fullHash hexFn c)
      (derivedAssetName hexFn path c) (sizeFn c) now1 := by
    rw [hr1]
    simp only [convert_to_lfs, hfs, hname]
  have hfs1 : r1.fs.lookup path = some c := by
    rw [hr1fs, lookup_assocSet_ne _ _ _ _ (ne_append_pointer path)]
    exact hfs
  obtain ⟨c', hc'⟩ := convertAssetStep_keeps_asset store tag (derivedAssetName hexFn path c) c
  have hup2 : convertAssetStep r1.store tag (derivedAssetName hexFn path c) c
      = ((getOrCreateRelease r1.store tag).1, derivedAssetName hexFn path c, []) := by
    apply convertAssetStep_present
    rw [hr1store]
    exact hc'
  obtain ⟨vs, hrec1, hany⟩ := add_version_has_hash manifest path (fullHash hexFn c)
    (derivedAssetName hexFn path c) (sizeFn c) now1
  have hrec1' : get_file_record r1.manifest path = some ⟨fullHash hexFn c, vs⟩ := by
    rw [hr1manifest]
    exact hrec1
  have hconv2 : convert_to_lfs hexFn sizeFn enc r1.fs r1.store r1.manifest path tag now2
      = ⟨assocSet r1.fs (path ++ ".pointer")
            (enc ⟨1, fullHash hexFn c, sizeFn c, basename path, tag,
              derivedAssetName hexFn path c⟩),
          (getOrCreateRelease r1.store tag).1,
          add_version r1.manifest path (fullHash hexFn c) (derivedAssetName hexFn path c)
            (sizeFn c) now2,
          true, []⟩ := by
    simp only [convert_to_lfs, hfs1, hup2]
  rw [hconv2]
  refine ⟨rfl, rfl, ?_⟩
  have hadd2 : add_version r1.manifest path (fullHash hexFn c)
      (derivedAssetName hexFn path c) (sizeFn c) now2
      = ⟨assocSet r1.manifest.files path ⟨fullHash hexFn c, vs⟩⟩ := by
    unfold add_version
    rw [show r1.manifest.files.lookup path = some ⟨fullHash hexFn c, vs⟩ from hrec1']
    simp only [hany, if_true, if_pos rfl]
  rw [hadd2]
  unfold get_file_record
  rw [lookup_assocSet_self]
  exact hrec1'.symm

theorem c3_offload_idempotent_witness :
    (convert_to_lfs cHex cSize cEnc
        (convert_to_lfs cHex cSize cEnc [("d/f.bin", CBytes.raw 1)] ⟨[]⟩ ⟨[]⟩
          "d/f.bin" "large-files-v1" "t1").fs
        (convert_to_lfs cHex cSize cEnc [("d/f.bin", CBytes.raw 1)] ⟨[]⟩ ⟨[]⟩
          "d/f.bin" "large-files-v1" "t1").store
        (convert_to_lfs cHex cSize cEnc [("d/f.bin", CBytes.raw 1)] ⟨[]⟩ ⟨[]⟩
          "d/f.bin" "large-files-v1" "t1").manifest
        "d/f.bin" "large-files-v1" "t2").ok = true ∧
    (convert_to_lfs cHex cSize cEnc
        (convert_to_lfs cHex cSize cEnc [("d/f.bin", CBytes.raw 1)] ⟨[]⟩ ⟨[]⟩
          "d/f.bin" "large-files-v1" "t1").fs
        (convert_to_lfs cHex cSize cEnc [("d/f.bin", CBytes.raw 1)] ⟨[]⟩ ⟨[]⟩
          "d/f.bin" "large-files-v1" "t1").store
        (convert_to_lfs cHex cSize cEnc [("d/f.bin", CBytes.raw 1)] ⟨[]⟩ ⟨[]⟩
          "d/f.bin" "large-files-v1" "t1").manifest
        "d/f.bin" "large-files-v1" "t2").uploads = [] ∧
    get_file_record
        (convert_to_lfs cHex cSize cEnc
          (convert_to_lfs cHex cSize cEnc [("d/f.bin", CBytes.raw 1)] ⟨[]⟩ ⟨[]⟩
            "d/f.bin" "large-files-v1" "t1").fs
          (convert_to_lfs cHex cSize cEnc [("d/f.bin", CBytes.raw 1)] ⟨[]⟩ ⟨[]⟩
            "d/f.bin" "large-files-v1" "t1").store
          (convert_to_lfs cHex cSize cEnc [("d/f.bin", CBytes.raw 1)] ⟨[]⟩ ⟨[]⟩
            "d/f.bin" "large-files-v1" "t1").manifest
          "d/f.bin" "large-files-v1" "t2").manifest "d/f.bin"
      = get_file_record
          (convert_to_lfs cHex cSize cEnc [("d/f.bin", CBytes.raw 1)] ⟨[]⟩ ⟨[]⟩
            "d/f.bin" "large-files-v1" "t1").manifest "d/f.bin" :=
  c3_offload_idempotent cHex cSize cEnc [("d/f.bin", CBytes.raw 1)] ⟨[]⟩ ⟨[]⟩
    "d/f.bin" "large-files-v1" "t1" "t2" (CBytes.raw 1) rfl
    (convert_to_lfs cHex cSize cEnc [("d/f.bin", CBytes.raw 1)] ⟨[]⟩ ⟨[]⟩
      "d/f.bin" "large-files-v1" "t1") rfl

/-! ### C2: already-satisfied restore still downloads -/

/-- Concrete data for the C2 scenario: the destination already exists
with the recorded hash. -/
def c2ptr : PointerFile :=
  ⟨1, "sha256:aa", 1001, "f.bin", "large-files-v1", "aa-f.bin"⟩

def c2fs : FS CBytes :=
  [("d/f.bin.pointer", CBytes.ptr c2ptr), ("d/f.bin", CBytes.raw 1)]

def c2store : Store CBytes :=
  ⟨[("large-files-v1", [("aa-f.bin", CBytes.raw 1)])]⟩

/-- C2 counterexample: with the destination already present and matching
the recorded hash, `restore_from_lfs` returns success — but it has
already downloaded the asset (step 4 precedes the existence check of
step 6), so it performs one download, not zero. -/
theorem c2_zero_downloads_counterexample :
    fullHash cHex (CBytes.raw 1) = c2ptr.hash ∧
    c2fs.lookup "d/f.bin" = some (CBytes.raw 1) ∧
    (restore_from_lfs cHex cDec c2store ⟨[]⟩ c2fs "d/f.bin.pointer" true).ok = true ∧
    (restore_from_lfs cHex cDec c2store ⟨[]⟩ c2fs "d/f.bin.pointer" true).downloads
        = ["aa-f.bin"] ∧
    ¬((restore_from_lfs cHex cDec c2store ⟨[]⟩ c2fs "d/f.bin.pointer" true).downloads
        = []) ∧
    (restore_from_lfs cHex cDec c2store ⟨[]⟩ c2fs "d/f.bin.pointer" true).fs = c2fs := by
  exact ⟨by decide, by decide, by decide, by decide, by decide, by rfl⟩

/-- C2 amended: when the destination already exists with the recorded
hash, `restore_from_lfs` returns success and leaves the filesystem
unchanged, but it performs exactly one download (the fetched temp file is
discarded, not avoided); a second identical restore behaves the same, so
two such restores both return success with one download each. -/
theorem c2_already_satisfied_amended {γ : Type} (hexFn : γ → String)
    (dec : γ → Option PointerFile) (store : Store γ) (manifest : ManifestData)
    (fs : FS γ) (pointer_path : String) (verify : Bool) (p : PointerFile)
    (cP cD : γ) (assets : List (String × γ))
    (hread : (fs.lookup pointer_path).bind dec = some p)
    (hval : validate_pointer p = true)
    (hrel : store.releases.lookup p.release_tag = some assets)
    (hasset : assets.lookup p.asset_name = some cP)
    (hver : verify = true → fullHash hexFn cP = p.hash)
    (hdest : fs.lookup (get_real_path_from_pointer pointer_path) = some cD)
    (hmatch : fullHash hexFn cD = p.hash) :
    restore_from_lfs hexFn dec store manifest fs pointer_path verify
      = ⟨fs, true, [p.asset_name], some p⟩ ∧
    restore_from_lfs hexFn dec store manifest
        (restore_from_lfs hexFn dec store manifest fs pointer_path verify).fs
        pointer_path verify
      = ⟨fs, true, [p.asset_name], some p⟩ := by
  have hcond : (verify && !(fullHash hexFn cP == p.hash)) = false := by
    cases hv : verify
    · rfl
    · simp [hver hv]
  have hone : restore_from_lfs hexFn dec store manifest fs pointer_path verify
      = ⟨fs, true, [p.asset_name], some p⟩ := by
    simp only [restore_from_lfs, hread, hval, Bool.not_true, Bool.false_eq_true,
      if_false, hrel, hasset, hcond, hdest, beq_iff_eq.mpr hmatch, if_pos rfl, if_true]
  exact ⟨hone, by rw [hone]; exact hone⟩

theorem c2_already_satisfied_amended_witness :
    restore_from_lfs cHex cDec c2store ⟨[]⟩ c2fs "d/f.bin.pointer" true
      = ⟨c2fs, true, [c2ptr.asset_name], some c2ptr⟩ ∧
    restore_from_lfs cHex cDec c2store ⟨[]⟩
        (restore_from_lfs cHex cDec c2store ⟨[]⟩ c2fs "d/f.bin.pointer" true).fs
        "d/f.bin.pointer" true
      = ⟨c2fs, true, [c2ptr.asset_name], some c2ptr⟩ :=
  c2_already_satisfied_amended cHex cDec c2store ⟨[]⟩ c2fs "d/f.bin.pointer" true
    c2ptr (CBytes.raw 1) (CBytes.raw 1) [("aa-f.bin", CBytes.raw 1)]
    rfl (by decide) rfl rfl (fun _ => rfl) rfl rfl

/-! ### C7: fallback walk over recorded versions -/

/-- C7: when the asset named by the pointer is absent, the restore walks
the manifest's versions for the real path newest-first (the walked list is
sorted descending by timestamp), succeeds via the first recorded version
whose asset still exists — adopting that version's name, hash and size —
and fails exactly when every recorded name misses. -/
theorem c7_fallback_walk {γ : Type} (hexFn : γ → String)
    (dec : γ → Option PointerFile) (store : Store γ) (manifest : ManifestData)
    (fs : FS γ) (pointer_path : String) (verify : Bool) (p0 : PointerFile)
    (assets : List (String × γ))
    (hread : (fs.lookup pointer_path).bind dec = some p0)
    (hval : validate_pointer p0 = true)
    (hrel : store.releases.lookup p0.release_tag = some assets)
    (habsent : assets.lookup p0.asset_name = none) :
    List.Pairwise tsGe (get_all_versions manifest (strDropRight pointer_path 8)) ∧
    (∀ v cv,
      (get_all_versions manifest (strDropRight pointer_path 8)).find?
          (fun v => (assets.lookup v.asset_name).isSome) = some v →
      assets.lookup v.asset_name = some cv →
      (verify = true → fullHash hexFn cv = v.hash) →
      (restore_from_lfs hexFn dec store manifest fs pointer_path verify).ok = true ∧
      (restore_from_lfs hexFn dec store manifest fs pointer_path verify).downloads
          = [v.asset_name] ∧
      (restore_from_lfs hexFn dec store manifest fs pointer_path verify).used
          = some { p0 with asset_name := v.asset_name, hash := v.hash, size := v.size }) ∧
    ((∀ v ∈ get_all_versions manifest (strDropRight pointer_path 8),
        assets.lookup v.asset_name = none) →
      (restore_from_lfs hexFn dec store manifest fs pointer_path verify).ok = false ∧
      (restore_from_lfs hexFn dec store manifest fs pointer_path verify).downloads
          = []) := by
  refine ⟨?_, ?_, ?_⟩
  · unfold get_all_versions
    cases h : get_file_record manifest (strDropRight pointer_path 8) with
    | none => exact List.Pairwise.nil
    | some record => exact List.sorted_insertionSort tsGe record.versions
  · intro v cv hfind hcv hver
    have hcond : (verify && !(fullHash hexFn cv == v.hash)) = false := by
      cases hv : verify
      · rfl
      · simp [hver hv]
    have hrest : restore_from_lfs hexFn dec store manifest fs pointer_path verify
        = ⟨(match fs.lookup (get_real_path_from_pointer pointer_path) with
            | some existing =>
              if fullHash hexFn existing == v.hash then fs
              else assocSet fs (get_real_path_from_pointer pointer_path) cv
            | none => assocSet fs (get_real_path_from_pointer pointer_path) cv),
            true, [v.asset_name],
            some ⟨p0.version, v.hash, v.size, p0.filename, p0.release_tag,
              v.asset_name⟩⟩ := by
      simp only [restore_from_lfs, hread, hval, Bool.not_true, Bool.false_eq_true,
        if_false, hrel, habsent, hfind, hcv, Option.some_bind, Option.map_some',
        hcond]
      cases hdst : fs.lookup (get_real_path_from_pointer pointer_path) with
      | none => rfl
      | some existing =>
        by_cases hm : (fullHash hexFn existing == v.hash) = true
        · simp [hm]
        · simp [hm]
    rw [hrest]
    exact ⟨rfl, rfl, rfl⟩
  · intro hmiss
    have hfind : (get_all_versions manifest (strDropRight pointer_path 8)).find?
        (fun v => (assets.lookup v.asset_name).isSome) = none := by
      rw [List.find?_eq_none]
      intro v hv
      simp [hmiss v hv]
    have hrest : restore_from_lfs hexFn dec store manifest fs pointer_path verify
        = ⟨fs, false, [], none⟩ := by
      simp only [restore_from_lfs, hread, hval, Bool.not_true, Bool.false_eq_true,
        if_false, hrel, habsent, hfind, Option.none_bind]
    rw [hrest]
    exact ⟨rfl, rfl⟩

/-- Concrete data for the C7 witness: the pointer names an evicted asset,
the manifest still records a version whose asset survives. -/
def c7ptr : PointerFile :=
  ⟨1, "sha256:aa", 1001, "f.bin", "large-files-v1", "gone-f.bin"⟩

def c7ver : FileVersion :=
  ⟨"sha256:aa", "aa-f.bin", 1001, "2024-01-01T00:00:00Z", true⟩

def c7manifest : ManifestData := ⟨[("d/f.bin", ⟨"sha256:aa", [c7ver]⟩)]⟩

def c7fs : FS CBytes := [("d/f.bin.pointer", CBytes.ptr c7ptr)]

theorem c7_fallback_walk_witness :
    List.Pairwise tsGe (get_all_versions c7manifest (strDropRight "d/f.bin.pointer" 8)) ∧
    (∀ v cv,
      (get_all_versions c7manifest (strDropRight "d/f.bin.pointer" 8)).find?
          (fun v => (([("aa-f.bin", CBytes.raw 1)] : List (String × CBytes)).lookup
            v.asset_name).isSome) = some v →
      ([("aa-f.bin", CBytes.raw 1)] : List (String × CBytes)).lookup v.asset_name
          = some cv →
      (true = true → fullHash cHex cv = v.hash) →
      (restore_from_lfs cHex cDec c2store c7manifest c7fs "d/f.bin.pointer" true).ok
          = true ∧
      (restore_from_lfs cHex cDec c2store c7manifest c7fs "d/f.bin.pointer" true).downloads
          = [v.asset_name] ∧
      (restore_from_lfs cHex cDec c2store c7manifest c7fs "d/f.bin.pointer" true).used
          = some { c7ptr with asset_name := v.asset_name, hash := v.hash, size := v.size }) ∧
    ((∀ v ∈ get_all_versions c7manifest (strDropRight "d/f.bin.pointer" 8),
        ([("aa-f.bin", CBytes.raw 1)] : List (String × CBytes)).lookup v.asset_name
          = none) →
      (restore_from_lfs cHex cDec c2store c7manifest c7fs "d/f.bin.pointer" true).ok
          = false ∧
      (restore_from_lfs cHex cDec c2store c7manifest c7fs "d/f.bin.pointer" true).downloads
          = []) :=
  c7_fallback_walk cHex cDec c2store c7manifest c7fs "d/f.bin.pointer" true c7ptr
    [("aa-f.bin", CBytes.raw 1)] rfl (by decide) rfl rfl

/-! ### C9/C10: ordering and hash-verification of the periodic cycle -/

/-- Events belonging to the offload phase of the cycle. -/
def offloadish (e : SyncEvent) : Prop :=
  e = SyncEvent.offloadScan ∨ (∃ fp, e = SyncEvent.offload fp) ∨ e = SyncEvent.cleanup

theorem repairFoldStep_events {γ : Type} (hexFn : γ → String)
    (dec : γ → Option PointerFile) (acc : SyncState γ × List SyncEvent)
    (pp : String) :
    (repairFoldStep hexFn dec acc pp).2 = acc.2 ∨
    (repairFoldStep hexFn dec acc pp).2
      = acc.2 ++ [SyncEvent.restoreRepair pp false] := by
  unfold repairFoldStep
  cases h : (acc.1.fs.lookup pp).bind dec with
  | none => exact Or.inl rfl
  | some p =>
    by_cases hex : ((acc.1.fs.lookup (if strEndsWith pp ".pointer" then
        strDropRight pp 8 else pp)).isSome) = true
    · left
      simp [hex]
    · right
      simp [hex]

theorem foldl_repair_events {γ : Type} (hexFn : γ → String)
    (dec : γ → Option PointerFile) (l : List String) :
    ∀ acc : SyncState γ × List SyncEvent,
      (∀ e ∈ acc.2, ∃ pp, e = SyncEvent.restoreRepair pp false) →
      ∀ e ∈ (l.foldl (repairFoldStep hexFn dec) acc).2,
        ∃ pp, e = SyncEvent.restoreRepair pp false := by
  induction l with
  | nil => exact fun acc h e he => h e he
  | cons pp rest ih =>
    intro acc h
    apply ih
    intro e he
    rcases repairFoldStep_events hexFn dec acc pp with heq | heq
    · rw [heq] at he
      exact h e he
    · rw [heq] at he
      rcases List.mem_append.mp he with h1 | h2
      · exact h e h1
      · simp only [List.mem_singleton] at h2
        exact ⟨pp, h2⟩

theorem repairStep_events {γ : Type} (hexFn : γ → String) (sizeFn : γ → Int)
    (dec : γ → Option PointerFile) (cfg : DaemonConfig) (st : SyncState γ) :
    ∀ e ∈ (repairStep hexFn sizeFn dec cfg st).2,
      ∃ pp, e = SyncEvent.restoreRepair pp false := by
  unfold repairStep
  cases hb : cfg.lfs_enabled
  · simp
  · simp only [if_pos rfl]
    exact foldl_repair_events hexFn dec _ _ (by intro e he; simp at he)

theorem foldl_offload_events {γ : Type} (hexFn : γ → String) (sizeFn : γ → Int)
    (enc : PointerFile → γ) (tag now : String) (l : List String) :
    ∀ acc : SyncState γ × List SyncEvent,
      (∀ e ∈ acc.2, offloadish e) →
      ∀ e ∈ (l.foldl (offloadFoldStep hexFn sizeFn enc tag now) acc).2, offloadish e := by
  induction l with
  | nil => exact fun acc h e he => h e he
  | cons fp rest ih =>
    intro acc h
    apply ih
    intro e he
    have heq : (offloadFoldStep hexFn sizeFn enc tag now acc fp).2
        = acc.2 ++ [SyncEvent.offload fp] := rfl
    rw [heq] at he
    rcases List.mem_append.mp he with h1 | h2
    · exact h e h1
    · simp only [List.mem_singleton] at h2
      exact Or.inr (Or.inl ⟨fp, h2⟩)

theorem processLargeFiles_events {γ : Type} (hexFn : γ → String) (sizeFn : γ → Int)
    (enc : PointerFile → γ) (cfg : DaemonConfig) (now : String) (st : SyncState γ) :
    ∀ e ∈ (processLargeFiles hexFn sizeFn enc cfg now st).2, offloadish e := by
  unfold processLargeFiles
  cases hb : cfg.lfs_enabled
  · simp
  · simp only [if_pos rfl]
    intro e he
    rcases List.mem_append.mp he with h1 | h2
    · refine foldl_offload_events hexFn sizeFn enc cfg.lfs_release_tag now _ _ ?_ e h1
      intro e' he'
      simp only [List.mem_singleton] at he'
      exact Or.inl he'
    · simp only [List.mem_singleton] at h2
      exact Or.inr (Or.inr h2)

/-- C9: in every cycle of `pull_commit_push` the trace is the pull,
followed by the restore-repair events, followed by the offload-phase
events (scan, conversions, retention cleanup), followed by commit and
push — so the repair of pointers whose real file is missing always runs
after the pull and strictly before the offload scan. -/
theorem c9_repair_precedes_offload {γ : Type} (hexFn : γ → String) (sizeFn : γ → Int)
    (enc : PointerFile → γ) (dec : γ → Option PointerFile)
    (cfg : DaemonConfig) (now : String) (pullFn : FS γ → FS γ) (st : SyncState γ) :
    ∃ rs os,
      (pull_commit_push hexFn sizeFn enc dec cfg now pullFn st).2
        = SyncEvent.pull :: (rs ++ os ++ [SyncEvent.commit, SyncEvent.push]) ∧
      (∀ e ∈ rs, ∃ pp, e = SyncEvent.restoreRepair pp false) ∧
      (∀ e ∈ os, offloadish e) := by
  refine ⟨(repairStep hexFn sizeFn dec cfg ⟨pullFn st.fs, st.store, st.manifest⟩).2,
    (processLargeFiles hexFn sizeFn enc cfg now
      (repairStep hexFn sizeFn dec cfg ⟨pullFn st.fs, st.store, st.manifest⟩).1).2,
    rfl, repairStep_events hexFn sizeFn dec cfg _, processLargeFiles_events _ _ _ _ _ _⟩

/-- Concrete daemon configuration and state shared by the cycle witnesses. -/
def c10store : Store CBytes :=
  ⟨[("large-files-v1", [("aa-f.bin", CBytes.raw 2)])]⟩

def c10fs : FS CBytes := [("d/f.bin.pointer", CBytes.ptr c2ptr)]

def c10cfg : DaemonConfig := ⟨true, 1000, "large-files-v1", 3, []⟩

theorem c9_repair_precedes_offload_witness :
    ∃ rs os,
      (pull_commit_push cHex cSize cEnc cDec c10cfg "t1" id
          ⟨c10fs, c10store, ⟨[]⟩⟩).2
        = SyncEvent.pull :: (rs ++ os ++ [SyncEvent.commit, SyncEvent.push]) ∧
      (∀ e ∈ rs, ∃ pp, e = SyncEvent.restoreRepair pp false) ∧
      (∀ e ∈ os, offloadish e) :=
  c9_repair_precedes_offload cHex cSize cEnc cDec c10cfg "t1" id
    ⟨c10fs, c10store, ⟨[]⟩⟩

/-- C10: every restore issued by the repair step of the cycle carries
`verify_hash = false` (no event with the flag set ever appears), and with
verification disabled `restore_from_lfs` moves a corrupted download —
content whose hash differs from the pointer's recorded hash — into place
and reports success. -/
theorem c10_repair_verify_disabled {γ : Type} (hexFn : γ → String) (sizeFn : γ → Int)
    (enc : PointerFile → γ) (dec : γ → Option PointerFile)
    (cfg : DaemonConfig) (now : String) (pullFn : FS γ → FS γ) (st : SyncState γ)
    (store : Store γ) (manifest : ManifestData) (fs : FS γ)
    (pointer_path : String) (p : PointerFile) (cP : γ) (assets : List (String × γ))
    (hread : (fs.lookup pointer_path).bind dec = some p)
    (hval : validate_pointer p = true)
    (hrel : store.releases.lookup p.release_tag = some assets)
    (hasset : assets.lookup p.asset_name = some cP)
    (hmismatch : fullHash hexFn cP ≠ p.hash)
    (hdest : fs.lookup (get_real_path_from_pointer pointer_path) = none) :
    (∀ pp b, SyncEvent.restoreRepair pp b
        ∈ (pull_commit_push hexFn sizeFn enc dec cfg now pullFn st).2 → b = false) ∧
    (restore_from_lfs hexFn dec store manifest fs pointer_path false
      = ⟨assocSet fs (get_real_path_from_pointer pointer_path) cP, true,
          [p.asset_name], some p⟩) ∧
    fullHash hexFn cP ≠ p.hash := by
  refine ⟨?_, ?_, hmismatch⟩
  · intro pp b hmem
    have htrace : (pull_commit_push hexFn sizeFn enc dec cfg now pullFn st).2
        = SyncEvent.pull ::
          ((repairStep hexFn sizeFn dec cfg ⟨pullFn st.fs, st.store, st.manifest⟩).2
            ++ (processLargeFiles hexFn sizeFn enc cfg now
              (repairStep hexFn sizeFn dec cfg ⟨pullFn st.fs, st.store, st.manifest⟩).1).2
            ++ [SyncEvent.commit, SyncEvent.push]) := rfl
    rw [htrace] at hmem
    rcases List.mem_cons.mp hmem with h0 | h1
    · exact absurd h0 (by simp)
    · rcases List.mem_append.mp h1 with h2 | h3
      · rcases List.mem_append.mp h2 with h4 | h5
        · obtain ⟨pp', hpp'⟩ := repairStep_events hexFn sizeFn dec cfg _ _ h4
          simp only [SyncEvent.restoreRepair.injEq] at hpp'
          exact hpp'.2
        · rcases processLargeFiles_events hexFn sizeFn enc cfg now _ _ h5 with
            h | ⟨fp, h⟩ | h <;> simp at h
      · simp at h3
  · simp only [restore_from_lfs, hread, hval, Bool.not_true, Bool.false_eq_true,
      if_false, hrel, hasset, Bool.false_and, hdest]

theorem c10_repair_verify_disabled_witness :
    (∀ pp b, SyncEvent.restoreRepair pp b
        ∈ (pull_commit_push cHex cSize cEnc cDec c10cfg "t1" id
            ⟨c10fs, c10store, ⟨[]⟩⟩).2 → b = false) ∧
    (restore_from_lfs cHex cDec c10store ⟨[]⟩ c10fs "d/f.bin.pointer" false
      = ⟨assocSet c10fs (get_real_path_from_pointer "d/f.bin.pointer") (CBytes.raw 2),
          true, [c2ptr.asset_name], some c2ptr⟩) ∧
    fullHash cHex (CBytes.raw 2) ≠ c2ptr.hash :=
  c10_repair_verify_disabled cHex cSize cEnc cDec c10cfg "t1" id
    ⟨c10fs, c10store, ⟨[]⟩⟩ c10store ⟨[]⟩ c10fs "d/f.bin.pointer" c2ptr
    (CBytes.raw 2) [("aa-f.bin", CBytes.raw 2)] rfl (by decide) rfl rfl
    (by decide) rfl

end Mofox
